import Mathlib

/-!
Verification of the Wick-contraction engine in `src/contraction.py` (with the
shared data model drafted in `src/dtype.py`).

The Python source is shallowly embedded:

* `Operator`, `Propagator`, `Diagram` mirror the frozen dataclasses;
* Python's exception outcomes are modelled with `Except PyError`;
* the in-place `operators.sort()` (Timsort, using the dataclass `__lt__`,
  which compares the tuple of all fields lexicographically) is modelled by
  `List.insertionSort` over the same total order: since the order is
  antisymmetric, every sorted permutation of a list is the same list, so the
  embedded sort agrees with any correct sort of the source;
* the recursive search `contract` is embedded twice: `contract` is a direct
  well-founded translation of the Python recursion, and `contractF` is a
  fuel-indexed structural variant used to evaluate concrete runs inside the
  kernel; `contractF_eq_contract` proves they agree whenever the fuel is at
  least half the list length (also settling the recursion-depth bound).
-/

/-- Operator dataclass from `src/contraction.py` lines 5-20: one quantum field
operator with label `pos`, particle `type`, `charge`, statistics `fermionic`
and externality `external`. -/
structure Operator where
  pos : String
  type : String
  charge : Int
  fermionic : Bool := false
  external : Bool := false
deriving DecidableEq

/-- Charge invariant enforced by `Operator.__post_init__`: `charge` must be
`1`, `-1` or `0`. -/
def Operator.validCharge (o : Operator) : Prop :=
  o.charge = 1 ∨ o.charge = -1 ∨ o.charge = 0

/-- Propagator dataclass from `src/contraction.py` lines 43-56: one completed
contraction, an edge from `initial` to `final` carrying `arrow` when the charge
flow is directed. -/
structure Propagator where
  type : String
  initial : String
  final : String
  arrow : Bool
deriving DecidableEq

/-- `Operator.__can_contract_with__` (lines 38-41): same type, same statistics,
and charges summing to zero. -/
def canContractWith (a b : Operator) : Bool :=
  a.type == b.type && a.fermionic == b.fermionic && a.charge + b.charge == 0

/-- `Operator.__add__` (lines 28-36).  The Python method raises `TypeError`
for an incompatible pair; the embedding returns `none` in that case. -/
def addOp (a b : Operator) : Option Propagator :=
  if !(canContractWith a b) then none
  else if a.charge == 1 && b.charge == -1 then
    some { type := a.type, initial := a.pos, final := b.pos, arrow := true }
  else if a.charge == -1 && b.charge == 1 then
    some { type := a.type, initial := b.pos, final := a.pos, arrow := true }
  else
    some { type := a.type, initial := a.pos, final := b.pos, arrow := false }

/-!
### Ordering layer

`@dataclass(order=True)` makes Python compare `Operator` values by the tuple
`(pos, type, charge, fermionic, external)` and `Propagator` values by the
tuple `(type, initial, final, arrow)`, lexicographically; tuple comparison
compares componentwise, moving on while components are equal.  Strings are
compared lexicographically by code point, and `False < True` for booleans.
The boolean strict orders below spell that out, and `IsStrictCmp` packages
the three facts (asymmetry, transitivity, and "neither smaller implies
equal") every later proof needs.
-/

/-- Lexicographic comparison of `List Char` by code point: exactly Python's
string `<`. -/
def charListLt : List Char → List Char → Bool
  | _, [] => false
  | [], _ :: _ => true
  | a :: as, b :: bs => if a = b then charListLt as bs else decide (a < b)

/-- Python string `<` on the underlying character lists. -/
def strLtB (a b : String) : Bool := charListLt a.data b.data

/-- Python `<` on integers. -/
def intLtB (a b : Int) : Bool := decide (a < b)

/-- Python `<` on booleans (`False < True`). -/
def boolLtB (a b : Bool) : Bool := !a && b

/-- Python tuple `<`, one component at a time: if the first components are
equal compare the rest, otherwise compare the first components. -/
def lexLt {α β : Type} [DecidableEq α] (ltA : α → α → Bool) (ltB : β → β → Bool)
    (x y : α × β) : Bool :=
  if x.1 = y.1 then ltB x.2 y.2 else ltA x.1 y.1

/-- A boolean relation that behaves like a strict total order. -/
structure IsStrictCmp {α : Type} (lt : α → α → Bool) : Prop where
  asymm : ∀ a b, lt a b = true → lt b a = false
  trans : ∀ a b c, lt a b = true → lt b c = true → lt a c = true
  connex : ∀ a b, lt a b = false → lt b a = false → a = b

/-- The field tuple `@dataclass(order=True)` generates the comparison from. -/
def opTuple (a : Operator) : String × String × Int × Bool × Bool :=
  (a.pos, a.type, a.charge, a.fermionic, a.external)

/-- Lexicographic `<` on the operator field tuple. -/
def opTupleLt : (String × String × Int × Bool × Bool) →
    (String × String × Int × Bool × Bool) → Bool :=
  lexLt strLtB (lexLt strLtB (lexLt intLtB (lexLt boolLtB boolLtB)))

/-- Python `Operator.__lt__` from `@dataclass(order=True)`. -/
def opLt (a b : Operator) : Bool := opTupleLt (opTuple a) (opTuple b)

/-- `a ≤ b` for operators: Timsort only ever asks `__lt__`, and a list is
sorted for it exactly when no later element is `__lt__`-below an earlier one,
i.e. when `¬(b < a)` holds for each adjacent pair. -/
def opLe (a b : Operator) : Bool := !(opLt b a)

/-- Python `Operator.__eq__` from `@dataclass(order=True)`: all five fields
compare equal. -/
def pyOpEq (a b : Operator) : Bool :=
  a.pos == b.pos && a.type == b.type && a.charge == b.charge &&
    a.fermionic == b.fermionic && a.external == b.external

/-- The field tuple `@dataclass(order=True)` generates the `Propagator`
comparison from. -/
def propTuple (p : Propagator) : String × String × String × Bool :=
  (p.type, p.initial, p.final, p.arrow)

/-- Python `Propagator.__lt__` from `@dataclass(order=True)`. -/
def propLt (p q : Propagator) : Bool :=
  lexLt strLtB (lexLt strLtB (lexLt strLtB boolLtB)) (propTuple p) (propTuple q)

/-- `p ≤ q` for propagators, as for operators. -/
def propLe (p q : Propagator) : Bool := !(propLt q p)

/-!
### Sorting and diagram assembly
-/

/-- The in-place `operators.sort()` at `src/contraction.py` line 152: the
unique permutation of the input sorted for the dataclass order.  The boolean
order is total, transitive and antisymmetric, so every correct sort of the
list produces this exact list of values. -/
def sortOperators (ops : List Operator) : List Operator :=
  List.insertionSort (fun a b => opLe a b = true) ops

/-- `tuple(sorted(self.propagators))` in `Diagram.__post_init__`
(lines 84-85), with the same uniqueness argument as `sortOperators`. -/
def sortPropagators (props : List Propagator) : List Propagator :=
  List.insertionSort (fun p q => propLe p q = true) props

/-- Diagram dataclass (lines 67-96): external vertex labels, internal vertex
labels, and the propagator list. -/
structure Diagram where
  outer_vertices : List String
  inner_vertices : List String
  propagators : List Propagator
deriving DecidableEq

/-- Diagram construction: `__post_init__` replaces the stored propagators by
their sorted tuple. -/
def mkDiagram (outer inner : List String) (props : List Propagator) : Diagram :=
  { outer_vertices := outer, inner_vertices := inner, propagators := sortPropagators props }

/-- `list_of_particles` property (lines 87-89): the set of `(type, arrow)`
pairs, embedded as a deduplicated list. -/
def listOfParticles (d : Diagram) : List (String × Bool) :=
  (d.propagators.map fun p => (p.type, p.arrow)).dedup

/-!
### The recursive search

`contract` below is the inner recursive function of `contraction`
(lines 155-182).  The Python loop `for i in range(1, len(to_be_contract))`
with its mutable `multiplicity_in_this_layer` becomes the tail-recursive
`contractLoop` carrying `i` and `mLayer`.  An uncaught `TypeError` from the
base case unwinds the entire recursion, which the `Except Unit` monad
reproduces.  The loop-level `try ... except TypeError: continue` appears as
the `none` branch of `addOp`.
-/

/-- The multiplicity adjustment of lines 173-174: `if to_be_contract[0].fermionic
and (i % 2 == 0): multiplicity_in_this_layer *= -1`. -/
def signAdjust (op0 : Operator) (i : Nat) (mLayer : Int) : Int :=
  if op0.fermionic = true ∧ i % 2 = 0 then -mLayer else mLayer

/-- `to_be_contract[1:i] + to_be_contract[i+1:]` (line 176): the remaining
operators once positions `0` and `i` are removed. -/
def branchRest (rem : List Operator) (i : Nat) : List Operator :=
  (rem.drop 1).take (i - 1) ++ rem.drop (i + 1)

mutual

/-- The recursive search `contract` (lines 155-182).  Returning
`.error ()` models the uncaught `TypeError` of the base case `pair =
to_be_contract[0] + to_be_contract[1]` (line 159); `.ok results` collects, in
depth-first order, the `(contracted + [pair], multiplicity)` entries appended
to `all_possible_contraction`.  This models the accumulator contents: the
Python function's return value is the accumulator at line 182, but `None`
when the call itself took the base case, whose `return` at line 161 is bare —
`contractionCore` accounts for that at the one place the return value is
used. -/
def contract (lsz : Bool) (rem : List Operator) (acc : List Propagator) (mult : Int) :
    Except Unit (List (List Propagator × Int)) :=
  match rem with
  | [a, b] =>
    match addOp a b with
    | none => .error ()
    | some pair => .ok [(acc ++ [pair], mult)]
  | l => contractLoop lsz l acc mult 1 1
termination_by (rem.length, rem.length + 1)

/-- The loop body of `contract` (lines 162-180), iterating `i` with the
running `multiplicity_in_this_layer` (`mLayer`).  The guard
`rem[i+1]? = some rem[i]` is the duplicate skip `(i < len(to_be_contract) - 1)
and (to_be_contract[i] == to_be_contract[i+1])`; the second guard is the LSZ
skip; the `addOp` match is the `try/except TypeError` block; a successful pair
recurses into `contract` and then continues the loop with `mLayer` reset
to `1`. -/
def contractLoop (lsz : Bool) (rem : List Operator) (acc : List Propagator) (mult : Int)
    (i : Nat) (mLayer : Int) : Except Unit (List (List Propagator × Int)) :=
  if h : i < rem.length then
    if rem[i+1]? = some rem[i] then
      contractLoop lsz rem acc mult (i + 1) (mLayer + 1)
    else if lsz = true ∧ rem[0].external = true ∧ rem[i].external = true then
      contractLoop lsz rem acc mult (i + 1) mLayer
    else
      match addOp rem[0] rem[i] with
      | none => contractLoop lsz rem acc mult (i + 1) mLayer
      | some pair =>
        match contract lsz (branchRest rem i) (acc ++ [pair]) (mult * signAdjust rem[0] i mLayer) with
        | .error e => .error e
        | .ok sub =>
          match contractLoop lsz rem acc mult (i + 1) 1 with
          | .error e => .error e
          | .ok rest => .ok (sub ++ rest)
  else .ok []
termination_by (rem.length, rem.length - i)
decreasing_by
  · exact Prod.Lex.right _ (by omega)
  · exact Prod.Lex.right _ (by omega)
  · exact Prod.Lex.right _ (by omega)
  · exact Prod.Lex.left _ _
      (by simp only [branchRest, List.length_append, List.length_take, List.length_drop]; omega)
  · exact Prod.Lex.right _ (by omega)

end

/-- Fuel-indexed loop body, structurally recursive so that the kernel can
evaluate it: `recur` stands for the recursive call into `contract` one level
deeper, and `j` counts the loop iterations still to run (`i` exceeds the list
length exactly when `j` reaches `0` at the call sites). -/
def contractLoopF
    (recur : List Operator → List Propagator → Int → Option (Except Unit (List (List Propagator × Int))))
    (lsz : Bool) (rem : List Operator) (acc : List Propagator) (mult : Int) :
    Nat → Nat → Int → Option (Except Unit (List (List Propagator × Int)))
  | 0, _, _ => some (.ok [])
  | j + 1, i, mLayer =>
    if h : i < rem.length then
      if rem[i+1]? = some rem[i] then
        contractLoopF recur lsz rem acc mult j (i + 1) (mLayer + 1)
      else if lsz = true ∧ rem[0].external = true ∧ rem[i].external = true then
        contractLoopF recur lsz rem acc mult j (i + 1) mLayer
      else
        match addOp rem[0] rem[i] with
        | none => contractLoopF recur lsz rem acc mult j (i + 1) mLayer
        | some pair =>
          match recur (branchRest rem i) (acc ++ [pair]) (mult * signAdjust rem[0] i mLayer) with
          | none => none
          | some (.error e) => some (.error e)
          | some (.ok sub) =>
            match contractLoopF recur lsz rem acc mult j (i + 1) 1 with
            | none => none
            | some (.error e) => some (.error e)
            | some (.ok rest) => some (.ok (sub ++ rest))
    else some (.ok [])

/-- Fuel-indexed version of `contract`: `fuel` bounds how many nested
recursive calls may still be made, and `none` reports fuel exhaustion.
Lists of length at most one make no recursive call in the source (the loop
body never runs), so they succeed regardless of fuel.
`contractF_eq_contract` shows fuel `rem.length / 2` always suffices. -/
def contractF (lsz : Bool) : Nat → List Operator → List Propagator → Int →
    Option (Except Unit (List (List Propagator × Int)))
  | _, [], _, _ => some (.ok [])
  | _, [_], _, _ => some (.ok [])
  | _, [a, b], acc, mult =>
    match addOp a b with
    | none => some (.error ())
    | some pair => some (.ok [(acc ++ [pair], mult)])
  | 0, _, _, _ => none
  | fuel + 1, rem, acc, mult =>
    contractLoopF (contractF lsz fuel) lsz rem acc mult (rem.length - 1) 1 1

/-!
### The entry point `contraction`
-/

/-- The distinct failure modes of `contraction` and of `Operator.__add__`.
The first three and `noValidContraction` are the `ValueError`s raised at
lines 142-147 and 190-191; `typeError` is the `TypeError` of
`Operator.__add__`; `attributeError` is the `AttributeError` a non-`Operator`
element triggers when line 146 reads its `charge` attribute. -/
inductive PyError where
  | invalidCount
  | invalidType
  | chargeImbalance
  | noValidContraction
  | typeError
  | attributeError
deriving DecidableEq

/-- `sum(op.charge for op in operators)` (line 146). -/
def chargeSum (ops : List Operator) : Int := (ops.map Operator.charge).sum

/-- `tuple(set(op.pos for op in operators if not op.external))` (line 149).
Python's set iteration order is implementation-defined; the embedding takes
the deduplicated list of labels, which has the same membership. -/
def innerVertices (ops : List Operator) : List String :=
  ((ops.filter fun op => !op.external).map Operator.pos).dedup

/-- `tuple(set(op.pos for op in operators if op.external))` (line 150). -/
def outerVertices (ops : List Operator) : List String :=
  ((ops.filter fun op => op.external).map Operator.pos).dedup

/-- Lines 183-189: keep the completed contractions whose propagator count is
half the operator count and wrap each in a `Diagram`. -/
def returnList (ops : List Operator) (results : List (List Propagator × Int)) :
    List (Diagram × Int) :=
  (results.filter fun r => r.1.length = ops.length / 2).map
    fun r => (mkDiagram (outerVertices ops) (innerVertices ops) r.1, r.2)

/-- The body of `contraction` after validation (lines 149-192): compute the
vertex sets, sort the operators, run the search, and iterate the value
returned by `contract(operators)` at line 184.  When the (sorted) input has
exactly two operators the top-level call takes the base case, whose bare
`return` at line 161 yields `None`, and the `for` at line 184 raises
`TypeError`; otherwise line 182 returns the accumulated
`all_possible_contraction`, whose complete pairings are filtered and
packaged, raising `NoValidContractionError` when none survive. -/
def contractionCore (ops : List Operator) (lsz : Bool) : Except PyError (List (Diagram × Int)) :=
  match contract lsz (sortOperators ops) [] 1 with
  | .error _ => .error .typeError
  | .ok results =>
    if (sortOperators ops).length = 2 then .error .typeError
    else if returnList ops results = [] then .error .noValidContraction
    else .ok (returnList ops results)

/-- `contraction(operators, LSZ_reduction)` (lines 100-192) on a list whose
elements are all `Operator` values.  The `isinstance` validation at line 144
tests `not isinstance(operators, list) and not all(...)`; the first conjunct
is `False` for every list argument, so the check never fires and is not
represented here (see `contractionPy` for the untyped front end). -/
def contraction (ops : List Operator) (lsz : Bool) : Except PyError (List (Diagram × Int)) :=
  if ops.length % 2 ≠ 0 then .error .invalidCount
  else if chargeSum ops ≠ 0 then .error .chargeImbalance
  else contractionCore ops lsz

/-- The contents of the caller's `operators` list when `contraction` returns
or raises: line 152 sorts it in place, but only after the validations at
lines 142-147 have passed. -/
def contractionFinalOperators (ops : List Operator) : List Operator :=
  if ops.length % 2 ≠ 0 then ops
  else if chargeSum ops ≠ 0 then ops
  else sortOperators ops

/-- The labels of the external operators of the input. -/
def externalPositions (ops : List Operator) : List String :=
  (ops.filter fun op => op.external).map Operator.pos

/-!
### The untyped front end

`contraction` is dynamically typed: its argument may contain arbitrary Python
values.  `PyObj` models an element that is either an `Operator` or some other
value (carrying no `charge` attribute, e.g. an `int`).
-/

/-- An element of the Python argument list: an `Operator` or any other
value. -/
inductive PyObj where
  | op (o : Operator)
  | other (n : Int)
deriving DecidableEq

/-- `isinstance(x, Operator)`. -/
def isOperatorValue : PyObj → Bool
  | .op _ => true
  | .other _ => false

/-- Reading `x.charge`: an `AttributeError` (here `none`) for values without
the attribute. -/
def getAttrCharge : PyObj → Option Int
  | .op o => some o.charge
  | .other _ => none

/-- `sum(op.charge for op in operators)` over the untyped list: the generator
touches every element, so a single attribute-less element fails the sum. -/
def sumCharges : List PyObj → Option Int
  | [] => some 0
  | x :: xs =>
    match getAttrCharge x with
    | none => none
    | some c =>
      match sumCharges xs with
      | none => none
      | some s => some (c + s)

/-- The embedded argument is always a Python `list`, so
`not isinstance(operators, list)` at line 144 is `False`. -/
def isPythonList : Bool := true

/-- Line 144 verbatim: `not isinstance(operators, list) and
not all(isinstance(op, Operator) for op in operators)`.  The conjunction can
never hold for a list argument. -/
def typeCheckFires (objs : List PyObj) : Bool :=
  !isPythonList && !(objs.all isOperatorValue)

/-- The `Operator` payloads of the list (used once every element is known to
be an `Operator`). -/
def operatorPayloads (objs : List PyObj) : List Operator :=
  objs.filterMap fun x => match x with | .op o => some o | .other _ => none

/-- `contraction` on an arbitrary Python list (lines 142-192): the length
check, the (ineffective) `isinstance` check, the charge sum — which raises
`AttributeError` on any non-`Operator` element — and then the typed body. -/
def contractionPy (objs : List PyObj) (lsz : Bool) : Except PyError (List (Diagram × Int)) :=
  if objs.length % 2 ≠ 0 then .error .invalidCount
  else if typeCheckFires objs then .error .invalidType
  else
    match sumCharges objs with
    | none => .error .attributeError
    | some s =>
      if s ≠ 0 then .error .chargeImbalance
      else contractionCore (operatorPayloads objs) lsz

/-!
### Concrete inputs used by the claims
-/

/-- Four self-conjugate fermionic operators of matching type (spec Example 2,
also the second docstring example of `contraction`). -/
def fermA : Operator := { pos := "a", type := "f", charge := 0, fermionic := true, external := false }

def fermB : Operator := { pos := "b", type := "f", charge := 0, fermionic := true, external := false }

def fermC : Operator := { pos := "c", type := "f", charge := 0, fermionic := true, external := false }

def fermD : Operator := { pos := "d", type := "f", charge := 0, fermionic := true, external := false }

def fourFermions : List Operator := [fermA, fermB, fermC, fermD]

/-- The three pairings of the four fermions with multiplicities 1, -1, 1. -/
def fourFermionsResult : List (Diagram × Int) :=
  [({ outer_vertices := [], inner_vertices := ["a", "b", "c", "d"],
      propagators := [⟨"f", "a", "b", false⟩, ⟨"f", "c", "d", false⟩] }, 1),
   ({ outer_vertices := [], inner_vertices := ["a", "b", "c", "d"],
      propagators := [⟨"f", "a", "c", false⟩, ⟨"f", "b", "d", false⟩] }, -1),
   ({ outer_vertices := [], inner_vertices := ["a", "b", "c", "d"],
      propagators := [⟨"f", "a", "d", false⟩, ⟨"f", "b", "c", false⟩] }, 1)]

/-- Two internal and two external neutral bosons of one type: under LSZ
reduction the branch that pairs the two internal operators leaves the two
external ones as the final pair, which the base case contracts without the
LSZ check. -/
def lszOps : List Operator :=
  [{ pos := "1", type := "f", charge := 0, fermionic := false, external := false },
   { pos := "2", type := "f", charge := 0, fermionic := false, external := true },
   { pos := "3", type := "f", charge := 0, fermionic := false, external := true },
   { pos := "4", type := "f", charge := 0, fermionic := false, external := false }]

/-- What `contraction(lszOps, LSZ_reduction=True)` returns: the third diagram
contracts the two external legs "2" and "3" with each other. -/
def lszResult : List (Diagram × Int) :=
  [({ outer_vertices := ["2", "3"], inner_vertices := ["1", "4"],
      propagators := [⟨"f", "1", "2", false⟩, ⟨"f", "3", "4", false⟩] }, 1),
   ({ outer_vertices := ["2", "3"], inner_vertices := ["1", "4"],
      propagators := [⟨"f", "1", "3", false⟩, ⟨"f", "2", "4", false⟩] }, 1),
   ({ outer_vertices := ["2", "3"], inner_vertices := ["1", "4"],
      propagators := [⟨"f", "1", "4", false⟩, ⟨"f", "2", "3", false⟩] }, 1)]

/-- A validated input whose only first-level pairing leaves the incompatible
final pair ("3" of type g, "4" of type h), so the base case raises the
uncaught `TypeError`. -/
def typeErrOps : List Operator :=
  [{ pos := "1", type := "f", charge := 1, fermionic := false, external := false },
   { pos := "2", type := "f", charge := -1, fermionic := false, external := false },
   { pos := "3", type := "g", charge := 1, fermionic := false, external := false },
   { pos := "4", type := "h", charge := -1, fermionic := false, external := false }]

/-- Same shape as `typeErrOps` with different labels, used by the C5
counterexample. -/
def typeErrOps2 : List Operator :=
  [{ pos := "p", type := "f", charge := 1, fermionic := false, external := false },
   { pos := "q", type := "f", charge := -1, fermionic := false, external := false },
   { pos := "r", type := "g", charge := 1, fermionic := false, external := false },
   { pos := "s", type := "h", charge := -1, fermionic := false, external := false }]

/-- An even-length Python list whose second element is not an `Operator`
(e.g. the integer 5). -/
def badTypeObjs : List PyObj :=
  [PyObj.op { pos := "a", type := "f", charge := 0, fermionic := false, external := false },
   PyObj.other 5]

/-- Two operators agreeing on `(pos, type, charge)` and differing only in
`fermionic`. -/
def sameKeyBoson : Operator := { pos := "x", type := "f", charge := 0, fermionic := false, external := false }

def sameKeyFermion : Operator := { pos := "x", type := "f", charge := 0, fermionic := true, external := false }

/-- A validated two-operator input with a compatible pair: the top-level
`contract` call takes the base case and returns `None`, so line 184 raises
`TypeError` even though a pairing exists. -/
def twoBosons : List Operator :=
  [{ pos := "a", type := "f", charge := 0, fermionic := false, external := false },
   { pos := "b", type := "f", charge := 0, fermionic := false, external := false }]

/-- An odd-length, unsorted input: validation fails before the in-place sort
runs. -/
def oddUnsortedOps : List Operator :=
  [{ pos := "b", type := "f", charge := 0, fermionic := false, external := false },
   { pos := "a", type := "f", charge := 0, fermionic := false, external := false },
   { pos := "c", type := "f", charge := 0, fermionic := false, external := false }]

/-!
### Order facts
-/

theorem charListLt_asymm : ∀ l1 l2, charListLt l1 l2 = true → charListLt l2 l1 = false
  | [], [] => by simp [charListLt]
  | [], _ :: _ => by simp [charListLt]
  | _ :: _, [] => by simp [charListLt]
  | a :: as, b :: bs => by
    simp only [charListLt]
    by_cases hab : a = b
    · subst hab
      rw [if_pos rfl, if_pos rfl]
      exact charListLt_asymm as bs
    · rw [if_neg hab, if_neg (fun h => hab h.symm)]
      simp only [decide_eq_true_eq, decide_eq_false_iff_not]
      exact fun h => lt_asymm h

theorem charListLt_trans : ∀ l1 l2 l3, charListLt l1 l2 = true → charListLt l2 l3 = true →
    charListLt l1 l3 = true
  | _, _, [] => by intro h1 h2; simp [charListLt] at h2
  | [], _, _ :: _ => by intro h1 h2; simp [charListLt]
  | _ :: _, [], _ :: _ => by intro h1 h2; simp [charListLt] at h1
  | a :: as, b :: bs, c :: cs => by
    simp only [charListLt]
    by_cases hab : a = b <;> by_cases hbc : b = c
    · subst hab; subst hbc
      rw [if_pos rfl, if_pos rfl, if_pos rfl]
      exact charListLt_trans as bs cs
    · subst hab
      rw [if_pos rfl, if_neg hbc, if_neg hbc]
      exact fun _ h2 => h2
    · subst hbc
      rw [if_neg hab, if_pos rfl, if_neg hab]
      exact fun h1 _ => h1
    · rw [if_neg hab, if_neg hbc]
      simp only [decide_eq_true_eq]
      intro h1 h2
      have hac : a < c := lt_trans h1 h2
      rw [if_neg (by intro h; rw [h] at h1; exact absurd h1 (lt_asymm h2))]
      simpa using hac

theorem charListLt_connex : ∀ l1 l2, charListLt l1 l2 = false → charListLt l2 l1 = false →
    l1 = l2
  | [], [] => by intro _ _; rfl
  | [], _ :: _ => by intro h1 _; simp [charListLt] at h1
  | _ :: _, [] => by intro _ h2; simp [charListLt] at h2
  | a :: as, b :: bs => by
    simp only [charListLt]
    by_cases hab : a = b
    · subst hab
      rw [if_pos rfl, if_pos rfl]
      intro h1 h2
      rw [charListLt_connex as bs h1 h2]
    · rw [if_neg hab, if_neg (fun h => hab h.symm)]
      simp only [decide_eq_false_iff_not]
      intro h1 h2
      exact absurd ((lt_or_gt_of_ne hab).resolve_left h1) h2

theorem strLtB_strict : IsStrictCmp strLtB where
  asymm a b h := charListLt_asymm _ _ h
  trans a b c h1 h2 := charListLt_trans _ _ _ h1 h2
  connex a b h1 h2 := by
    have := charListLt_connex _ _ h1 h2
    cases a; cases b
    exact congrArg String.mk this

theorem intLtB_strict : IsStrictCmp intLtB where
  asymm a b h := by simp only [intLtB, decide_eq_true_eq] at h; simpa [intLtB] using by omega
  trans a b c h1 h2 := by
    simp only [intLtB, decide_eq_true_eq] at h1 h2
    simpa [intLtB] using by omega
  connex a b h1 h2 := by
    simp only [intLtB, decide_eq_false_iff_not] at h1 h2
    omega

theorem boolLtB_strict : IsStrictCmp boolLtB :=
  ⟨by decide, by decide, by decide⟩

theorem IsStrictCmp.lex {α β : Type} [DecidableEq α] {ltA : α → α → Bool} {ltB : β → β → Bool}
    (hA : IsStrictCmp ltA) (hB : IsStrictCmp ltB) : IsStrictCmp (lexLt ltA ltB) where
  asymm x y h := by
    simp only [lexLt] at h ⊢
    by_cases hxy : x.1 = y.1
    · rw [if_pos hxy] at h
      rw [if_pos hxy.symm]
      exact hB.asymm _ _ h
    · rw [if_neg hxy] at h
      rw [if_neg (fun he => hxy he.symm)]
      exact hA.asymm _ _ h
  trans x y z h1 h2 := by
    simp only [lexLt] at h1 h2 ⊢
    by_cases hxy : x.1 = y.1 <;> by_cases hyz : y.1 = z.1
    · rw [if_pos hxy] at h1
      rw [if_pos hyz] at h2
      rw [if_pos (hxy.trans hyz)]
      exact hB.trans _ _ _ h1 h2
    · rw [if_neg hyz] at h2
      rw [if_neg (fun h => hyz (hxy.symm.trans h)), hxy]
      exact h2
    · rw [if_neg hxy] at h1
      rw [if_neg (fun h => hxy (h.trans hyz.symm)), ← hyz]
      exact h1
    · rw [if_neg hxy] at h1
      rw [if_neg hyz] at h2
      have hxz : ltA x.1 z.1 = true := hA.trans _ _ _ h1 h2
      have hne : x.1 ≠ z.1 := by
        intro h
        have := hA.asymm _ _ h2
        rw [← h, h1] at this
        cases this
      rw [if_neg hne]
      exact hxz
  connex x y h1 h2 := by
    simp only [lexLt] at h1 h2
    by_cases hxy : x.1 = y.1
    · rw [if_pos hxy] at h1
      rw [if_pos hxy.symm] at h2
      have := hB.connex _ _ h1 h2
      exact Prod.ext hxy this
    · rw [if_neg hxy] at h1
      rw [if_neg (fun he => hxy he.symm)] at h2
      exact absurd (hA.connex _ _ h1 h2) hxy

theorem opTupleLt_strict : IsStrictCmp opTupleLt :=
  strLtB_strict.lex (strLtB_strict.lex (intLtB_strict.lex (boolLtB_strict.lex boolLtB_strict)))

theorem opLt_strict : IsStrictCmp opLt where
  asymm a b h := opTupleLt_strict.asymm _ _ h
  trans a b c h1 h2 := opTupleLt_strict.trans _ _ _ h1 h2
  connex a b h1 h2 := by
    have h := opTupleLt_strict.connex _ _ h1 h2
    cases a; cases b
    simp only [opTuple, Prod.mk.injEq] at h
    simp [h.1, h.2.1, h.2.2.1, h.2.2.2.1, h.2.2.2.2]

theorem propLt_strict : IsStrictCmp propLt where
  asymm p q h := (strLtB_strict.lex (strLtB_strict.lex (strLtB_strict.lex boolLtB_strict))).asymm _ _ h
  trans p q s h1 h2 :=
    (strLtB_strict.lex (strLtB_strict.lex (strLtB_strict.lex boolLtB_strict))).trans _ _ _ h1 h2
  connex p q h1 h2 := by
    have h := (strLtB_strict.lex (strLtB_strict.lex (strLtB_strict.lex boolLtB_strict))).connex _ _ h1 h2
    cases p; cases q
    simp only [propTuple, Prod.mk.injEq] at h
    simp [h.1, h.2.1, h.2.2.1, h.2.2.2]

theorem IsStrictCmp.le_total {α : Type} {lt : α → α → Bool} (h : IsStrictCmp lt) :
    ∀ a b, (!(lt b a)) = true ∨ (!(lt a b)) = true := by
  intro a b
  cases hba : lt b a
  · left; rfl
  · right
    rw [h.asymm _ _ hba]
    rfl

theorem IsStrictCmp.le_trans {α : Type} {lt : α → α → Bool} (h : IsStrictCmp lt) :
    ∀ a b c, (!(lt b a)) = true → (!(lt c b)) = true → (!(lt c a)) = true := by
  intro a b c h1 h2
  simp only [Bool.not_eq_true'] at h1 h2 ⊢
  cases hca : lt c a
  · rfl
  · by_cases hbc : lt b c = true
    · rw [h.trans _ _ _ hbc hca] at h1
      cases h1
    · have hb : b = c := h.connex _ _ (by simpa using hbc) h2
      rw [← hb] at hca
      rw [hca] at h1
      cases h1

theorem IsStrictCmp.le_antisymm {α : Type} {lt : α → α → Bool} (h : IsStrictCmp lt) :
    ∀ a b, (!(lt b a)) = true → (!(lt a b)) = true → a = b := by
  intro a b h1 h2
  simp only [Bool.not_eq_true'] at h1 h2
  exact h.connex _ _ h2 h1

instance : IsTotal Operator (fun a b => opLe a b = true) :=
  ⟨fun a b => opLt_strict.le_total a b⟩

instance : IsTrans Operator (fun a b => opLe a b = true) :=
  ⟨fun a b c h1 h2 => opLt_strict.le_trans a b c h1 h2⟩

instance : IsAntisymm Operator (fun a b => opLe a b = true) :=
  ⟨fun a b h1 h2 => opLt_strict.le_antisymm a b h1 h2⟩

instance : IsTotal Propagator (fun p q => propLe p q = true) :=
  ⟨fun p q => propLt_strict.le_total p q⟩

instance : IsTrans Propagator (fun p q => propLe p q = true) :=
  ⟨fun p q s h1 h2 => propLt_strict.le_trans p q s h1 h2⟩

instance : IsAntisymm Propagator (fun p q => propLe p q = true) :=
  ⟨fun p q h1 h2 => propLt_strict.le_antisymm p q h1 h2⟩

theorem branchRest_length {rem : List Operator} {i : Nat} (h1 : 1 ≤ i) (h2 : i < rem.length) :
    (branchRest rem i).length + 2 = rem.length := by
  simp only [branchRest, List.length_append, List.length_take, List.length_drop]
  omega

theorem branchRest_length_lt {rem : List Operator} {i : Nat} (h2 : i < rem.length) :
    (branchRest rem i).length < rem.length := by
  simp only [branchRest, List.length_append, List.length_take, List.length_drop]
  omega

/-!
### Agreement of the two search embeddings
-/

theorem contractLoopF_eq (lsz : Bool) (fuel : Nat) (rem : List Operator)
    (hrec : ∀ rem' acc' m', rem'.length + 2 ≤ rem.length →
      contractF lsz fuel rem' acc' m' = some (contract lsz rem' acc' m')) :
    ∀ j i mLayer acc m, rem.length ≤ i + j → 1 ≤ i →
      contractLoopF (contractF lsz fuel) lsz rem acc m j i mLayer =
        some (contractLoop lsz rem acc m i mLayer) := by
  intro j
  induction j with
  | zero =>
    intro i mLayer acc m hij hi
    rw [contractLoop]
    rw [dif_neg (by omega)]
    rfl
  | succ j ih =>
    intro i mLayer acc m hij hi
    by_cases h : i < rem.length
    · rw [contractLoop, dif_pos h]
      rw [contractLoopF, dif_pos h]
      by_cases hdup : rem[i+1]? = some rem[i]
      · rw [if_pos hdup, if_pos hdup]
        exact ih (i + 1) (mLayer + 1) acc m (by omega) (by omega)
      · rw [if_neg hdup, if_neg hdup]
        by_cases hlsz : lsz = true ∧ rem[0].external = true ∧ rem[i].external = true
        · rw [if_pos hlsz, if_pos hlsz]
          exact ih (i + 1) mLayer acc m (by omega) (by omega)
        · rw [if_neg hlsz, if_neg hlsz]
          cases haddOp : addOp rem[0] rem[i] with
          | none => exact ih (i + 1) mLayer acc m (by omega) (by omega)
          | some pair =>
            dsimp only
            rw [hrec (branchRest rem i) (acc ++ [pair]) (m * signAdjust rem[0] i mLayer)
              (by rw [branchRest_length hi h])]
            cases contract lsz (branchRest rem i) (acc ++ [pair]) (m * signAdjust rem[0] i mLayer) with
            | error e => rfl
            | ok sub =>
              dsimp only
              rw [ih (i + 1) 1 acc m (by omega) (by omega)]
              cases contractLoop lsz rem acc m (i + 1) 1 with
              | error e => rfl
              | ok rest => rfl
    · rw [contractLoop, dif_neg h]
      rw [contractLoopF, dif_neg h]

/-- With fuel at least half the list length, the fuel-indexed search computes
exactly the well-founded one (in particular it never exhausts its fuel): the
nesting depth of the Python recursion is bounded by half the input length. -/
theorem contractF_eq_contract (lsz : Bool) :
    ∀ fuel rem acc m, rem.length / 2 ≤ fuel →
      contractF lsz fuel rem acc m = some (contract lsz rem acc m) := by
  intro fuel
  induction fuel with
  | zero =>
    intro rem acc m hlen
    match rem with
    | [] =>
      rw [contract]
      · rw [contractLoop, dif_neg (by simp)]
        rfl
      · intro a b hab
        simp at hab
    | [x] =>
      rw [contract]
      · rw [contractLoop, dif_neg (by simp)]
        rfl
      · intro a b hab
        simp at hab
    | x :: y :: rest => simp at hlen; omega
  | succ fuel ih =>
    intro rem acc m hlen
    match rem with
    | [] =>
      rw [contract]
      · rw [contractLoop, dif_neg (by simp)]
        rfl
      · intro a b hab
        simp at hab
    | [x] =>
      rw [contract]
      · rw [contractLoop, dif_neg (by simp)]
        rfl
      · intro a b hab
        simp at hab
    | [a, b] =>
      rw [contract]
      dsimp only [contractF]
      cases addOp a b with
      | none => rfl
      | some pair => rfl
    | a :: b :: c :: rest =>
      rw [contract]
      · show contractLoopF (contractF lsz fuel) lsz (a :: b :: c :: rest) acc m
            ((a :: b :: c :: rest).length - 1) 1 1 =
          some (contractLoop lsz (a :: b :: c :: rest) acc m 1 1)
        apply contractLoopF_eq
        · intro rem' acc' m' hlen'
          apply ih
          simp at hlen hlen'
          omega
        · simp
          omega
        · omega
      · intro a1 b1 hab
        simp at hab

/-- Bridge for concrete runs: a kernel evaluation of `contractF` with fuel
`rem.length` determines the value of `contract`. -/
theorem contract_eval {lsz : Bool} {rem : List Operator} {acc : List Propagator} {m : Int}
    {x : Except Unit (List (List Propagator × Int))}
    (h : contractF lsz rem.length rem acc m = some x) : contract lsz rem acc m = x := by
  have he := contractF_eq_contract lsz rem.length rem acc m (Nat.div_le_self _ _)
  rw [h] at he
  exact (Option.some.inj he).symm

/-!
### Multiplicities are never zero
-/

theorem signAdjust_ne_zero {op0 : Operator} {i : Nat} {mLayer : Int} (h : mLayer ≠ 0) :
    signAdjust op0 i mLayer ≠ 0 := by
  unfold signAdjust
  split
  · omega
  · exact h

theorem contractLoopF_mult
    (recur : List Operator → List Propagator → Int → Option (Except Unit (List (List Propagator × Int))))
    (lsz : Bool) (rem : List Operator) (acc : List Propagator) (m : Int) (hm : m ≠ 0)
    (hrec : ∀ rem' acc' m' l', m' ≠ 0 → recur rem' acc' m' = some (.ok l') →
      ∀ x ∈ l', x.2 ≠ 0) :
    ∀ j i mLayer l, 1 ≤ mLayer →
      contractLoopF recur lsz rem acc m j i mLayer = some (.ok l) → ∀ x ∈ l, x.2 ≠ 0 := by
  intro j
  induction j with
  | zero =>
    intro i mLayer l hL heq x hx
    rw [contractLoopF] at heq
    cases Except.ok.inj (Option.some.inj heq) 
    cases hx
  | succ j ih =>
    intro i mLayer l hL heq x hx
    rw [contractLoopF] at heq
    by_cases h : i < rem.length
    · rw [dif_pos h] at heq
      by_cases hdup : rem[i+1]? = some rem[i]
      · rw [if_pos hdup] at heq
        exact ih (i + 1) (mLayer + 1) l (by omega) heq x hx
      · rw [if_neg hdup] at heq
        by_cases hlsz : lsz = true ∧ rem[0].external = true ∧ rem[i].external = true
        · rw [if_pos hlsz] at heq
          exact ih (i + 1) mLayer l hL heq x hx
        · rw [if_neg hlsz] at heq
          cases haddOp : addOp rem[0] rem[i] with
          | none =>
            rw [haddOp] at heq
            exact ih (i + 1) mLayer l hL heq x hx
          | some pair =>
            rw [haddOp] at heq
            dsimp only at heq
            cases hr : recur (branchRest rem i) (acc ++ [pair]) (m * signAdjust rem[0] i mLayer) with
            | none => rw [hr] at heq; cases heq
            | some v =>
              rw [hr] at heq
              cases v with
              | error e => cases heq
              | ok sub =>
                dsimp only at heq
                cases hl : contractLoopF recur lsz rem acc m j (i + 1) 1 with
                | none => rw [hl] at heq; cases heq
                | some w =>
                  rw [hl] at heq
                  cases w with
                  | error e => cases heq
                  | ok rest =>
                    dsimp only at heq
                    cases Except.ok.inj (Option.some.inj heq)
                    rcases List.mem_append.1 hx with hx1 | hx2
                    · exact hrec _ _ _ sub
                        (mul_ne_zero hm (signAdjust_ne_zero (by omega))) hr x hx1
                    · exact ih (i + 1) 1 rest (by omega) hl x hx2
    · rw [dif_neg h] at heq
      cases Except.ok.inj (Option.some.inj heq)
      cases hx

theorem contractF_mult (lsz : Bool) :
    ∀ fuel rem acc m l, m ≠ 0 → contractF lsz fuel rem acc m = some (.ok l) →
      ∀ x ∈ l, x.2 ≠ 0 := by
  intro fuel
  induction fuel with
  | zero =>
    intro rem acc m l hm heq x hx
    match rem with
    | [] =>
      cases Except.ok.inj (Option.some.inj heq)
      cases hx
    | [y] =>
      cases Except.ok.inj (Option.some.inj heq)
      cases hx
    | [a, b] =>
      rw [contractF] at heq
      cases haddOp : addOp a b with
      | none => rw [haddOp] at heq; cases heq
      | some pair =>
        rw [haddOp] at heq
        dsimp only at heq
        cases Except.ok.inj (Option.some.inj heq)
        rw [List.mem_singleton] at hx
        rw [hx]
        exact hm
    | a :: b :: c :: rest => cases heq
  | succ fuel ih =>
    intro rem acc m l hm heq x hx
    match rem with
    | [] =>
      cases Except.ok.inj (Option.some.inj heq)
      cases hx
    | [y] =>
      cases Except.ok.inj (Option.some.inj heq)
      cases hx
    | [a, b] =>
      rw [contractF] at heq
      cases haddOp : addOp a b with
      | none => rw [haddOp] at heq; cases heq
      | some pair =>
        rw [haddOp] at heq
        dsimp only at heq
        cases Except.ok.inj (Option.some.inj heq)
        rw [List.mem_singleton] at hx
        rw [hx]
        exact hm
    | a :: b :: c :: rest =>
      rw [contractF] at heq
      · exact contractLoopF_mult (contractF lsz fuel) lsz (a :: b :: c :: rest) acc m hm
          (fun rem' acc' m' l' hm' heq' => ih rem' acc' m' l' hm' heq')
          ((a :: b :: c :: rest).length - 1) 1 1 l (by omega) heq x hx
      · simp
      · simp
      · simp

theorem contract_mult {lsz : Bool} {rem : List Operator} {acc : List Propagator} {m : Int}
    {l : List (List Propagator × Int)} (hm : m ≠ 0) (h : contract lsz rem acc m = .ok l) :
    ∀ x ∈ l, x.2 ≠ 0 := by
  have he := contractF_eq_contract lsz rem.length rem acc m (Nat.div_le_self _ _)
  rw [h] at he
  exact contractF_mult lsz rem.length rem acc m l hm he

/-!
### Sort facts
-/

theorem sortPropagators_perm (P : List Propagator) : (sortPropagators P).Perm P :=
  List.perm_insertionSort _ P

theorem sortPropagators_sorted (P : List Propagator) :
    List.Sorted (fun p q => propLe p q = true) (sortPropagators P) :=
  List.sorted_insertionSort _ P

theorem sortPropagators_eq_of_perm {P Q : List Propagator} (h : P.Perm Q) :
    sortPropagators P = sortPropagators Q :=
  List.eq_of_perm_of_sorted
    ((sortPropagators_perm P).trans (h.trans (sortPropagators_perm Q).symm))
    (sortPropagators_sorted P) (sortPropagators_sorted Q)

theorem sortPropagators_idem (P : List Propagator) :
    sortPropagators (sortPropagators P) = sortPropagators P :=
  List.Sorted.insertionSort_eq (sortPropagators_sorted P)

theorem sortOperators_perm (ops : List Operator) : (sortOperators ops).Perm ops :=
  List.perm_insertionSort _ ops

theorem sortOperators_sorted (ops : List Operator) :
    List.Sorted (fun a b => opLe a b = true) (sortOperators ops) :=
  List.sorted_insertionSort _ ops

theorem sumCharges_map_op : ∀ ops : List Operator,
    sumCharges (ops.map PyObj.op) = some (chargeSum ops) := by
  intro ops
  induction ops with
  | nil => rfl
  | cons o os ih =>
    simp only [List.map_cons, sumCharges, getAttrCharge, ih, chargeSum, List.map_cons,
      List.sum_cons]

theorem operatorPayloads_map_op : ∀ ops : List Operator,
    operatorPayloads (ops.map PyObj.op) = ops := by
  intro ops
  induction ops with
  | nil => rfl
  | cons o os ih =>
    simp only [List.map_cons, operatorPayloads, List.filterMap_cons] at ih ⊢
    rw [ih]

/-- On a list whose elements are all `Operator` values the untyped front end
agrees with the typed `contraction`. -/
theorem contractionPy_map_op (ops : List Operator) (lsz : Bool) :
    contractionPy (ops.map PyObj.op) lsz = contraction ops lsz := by
  unfold contractionPy contraction
  rw [List.length_map, sumCharges_map_op, operatorPayloads_map_op]
  by_cases he : ops.length % 2 ≠ 0
  · rw [if_pos he, if_pos he]
  · rw [if_neg he, if_neg he]
    have : typeCheckFires (ops.map PyObj.op) = false := by
      simp [typeCheckFires, isPythonList]
    rw [this]
    rfl

/-!
### Claims
-/

/-- C1.  The claim says that under `LSZ_reduction=True` no returned diagram
contracts two external operators with each other.  The code violates it: the
base case of `contract` (line 159) pairs the final two remaining operators
without the LSZ check of line 167, so on `lszOps` (even-length,
charge-balanced) the returned list contains a diagram whose propagator joins
the two external labels "2" and "3". -/
theorem lsz_violated_on_lszOps :
    contraction lszOps true = .ok lszResult ∧
    ∃ dm ∈ lszResult, ∃ p ∈ dm.1.propagators,
      p.initial ∈ externalPositions lszOps ∧ p.final ∈ externalPositions lszOps := by
  constructor
  · have h : contract true (sortOperators lszOps) [] 1 =
        .ok [([⟨"f", "1", "2", false⟩, ⟨"f", "3", "4", false⟩], 1),
             ([⟨"f", "1", "3", false⟩, ⟨"f", "2", "4", false⟩], 1),
             ([⟨"f", "1", "4", false⟩, ⟨"f", "2", "3", false⟩], 1)] := contract_eval (by rfl)
    simp only [contraction, contractionCore, h]
    rfl
  · decide

/-- C2.  The claim says the incompatibility `TypeError` is always caught
inside the engine, so after validation only `NoValidContractionError` can
escape.  The code violates it: the base case `pair = to_be_contract[0] +
to_be_contract[1]` (line 159) sits outside the `try/except TypeError` of
lines 169-172, so on `typeErrOps` (which passes all three validations) the
`TypeError` propagates to the caller. -/
theorem typeError_escapes_on_typeErrOps :
    contraction typeErrOps false = .error .typeError ∧
    PyError.typeError ≠ PyError.noValidContraction := by
  constructor
  · have h : contract false (sortOperators typeErrOps) [] 1 = .error () := contract_eval (by rfl)
    simp only [contraction, contractionCore, h]
    rfl
  · decide

/-- C3.  Four fermionic charge-0 operators a, b, c, d of one type produce
exactly the three pairings {(a,b),(c,d)}, {(a,c),(b,d)}, {(a,d),(b,c)} with
multiplicities 1, -1, 1; and the layer multiplicity adjustment of
lines 173-174 negates the running layer multiplicity exactly when
`remaining[0]` is fermionic and the index `i` is even. -/
theorem fourFermion_contraction :
    contraction fourFermions false = .ok fourFermionsResult ∧
    ∀ (op0 : Operator) (i : Nat) (m : Int), m ≠ 0 →
      (signAdjust op0 i m = -m ↔ (op0.fermionic = true ∧ i % 2 = 0)) := by
  constructor
  · have h : contract false (sortOperators fourFermions) [] 1 =
        .ok [([⟨"f", "a", "b", false⟩, ⟨"f", "c", "d", false⟩], 1),
             ([⟨"f", "a", "c", false⟩, ⟨"f", "b", "d", false⟩], -1),
             ([⟨"f", "a", "d", false⟩, ⟨"f", "b", "c", false⟩], 1)] := contract_eval (by rfl)
    simp only [contraction, contractionCore, h]
    rfl
  · intro op0 i m hm
    unfold signAdjust
    split
    · rename_i hcond
      exact ⟨fun _ => hcond, fun _ => rfl⟩
    · rename_i hcond
      constructor
      · intro heq
        omega
      · intro hc
        exact absurd hc hcond

/-- C3 witness: the sign rule evaluated at a fermionic operator, an even
index, and the nonzero layer multiplicity 5. -/
theorem fourFermion_contraction_witness :
    signAdjust fermA 2 5 = -5 ↔ (fermA.fermionic = true ∧ 2 % 2 = 0) :=
  fourFermion_contraction.2 fermA 2 5 (by norm_num)

/-- C4.  `Operator.__add__`: the pair succeeds exactly when types match,
statistics match and charges cancel; a (+1, -1) pair (in either operand
order) gives a directed propagator from the +1 label to the -1 label; a
(0, 0) pair gives an undirected propagator; and for valid charges these are
the only successful cases. -/
theorem addOp_spec : ∀ a b : Operator,
    ((addOp a b).isSome ↔ (a.type = b.type ∧ a.fermionic = b.fermionic ∧ a.charge + b.charge = 0)) ∧
    (a.charge = 1 → b.charge = -1 → a.type = b.type → a.fermionic = b.fermionic →
      addOp a b = some { type := a.type, initial := a.pos, final := b.pos, arrow := true }) ∧
    (a.charge = -1 → b.charge = 1 → a.type = b.type → a.fermionic = b.fermionic →
      addOp a b = some { type := a.type, initial := b.pos, final := a.pos, arrow := true }) ∧
    (a.charge = 0 → b.charge = 0 → a.type = b.type → a.fermionic = b.fermionic →
      addOp a b = some { type := a.type, initial := a.pos, final := b.pos, arrow := false }) ∧
    (a.validCharge → b.validCharge → (addOp a b).isSome →
      (a.charge = 1 ∧ b.charge = -1) ∨ (a.charge = -1 ∧ b.charge = 1) ∨
        (a.charge = 0 ∧ b.charge = 0)) := by
  intro a b
  have hcc : canContractWith a b = true ↔
      (a.type = b.type ∧ a.fermionic = b.fermionic ∧ a.charge + b.charge = 0) := by
    simp [canContractWith, and_assoc]
  have hsome : (addOp a b).isSome = canContractWith a b := by
    unfold addOp
    cases h : canContractWith a b
    · simp
    · simp only [Bool.not_true, Bool.false_eq_true, if_false]
      split
      · rfl
      · split
        · rfl
        · rfl
  refine ⟨by rw [← hcc]; simp [hsome], ?_, ?_, ?_, ?_⟩
  · intro h1 h2 ht hf
    have hc : canContractWith a b = true := by
      simp [canContractWith, ht, hf, h1, h2]
    unfold addOp
    rw [hc]
    simp [h1, h2]
  · intro h1 h2 ht hf
    have hc : canContractWith a b = true := by
      simp [canContractWith, ht, hf, h1, h2]
    unfold addOp
    rw [hc]
    simp [h1, h2]
  · intro h1 h2 ht hf
    have hc : canContractWith a b = true := by
      simp [canContractWith, ht, hf, h1, h2]
    unfold addOp
    rw [hc]
    simp [h1, h2]
  · intro hva hvb hs
    rw [hsome] at hs
    have hsum : a.charge + b.charge = 0 := (hcc.1 hs).2.2
    rcases hva with h1 | h1 | h1 <;> rcases hvb with h2 | h2 | h2 <;>
      rw [h1, h2] at hsum <;> simp [h1, h2] at *

/-- C4 witness: a creation electron at "x" plus an annihilation electron at
"y" gives the directed electron propagator from "x" to "y". -/
theorem addOp_spec_witness :
    addOp { pos := "x", type := "e", charge := 1, fermionic := true, external := true }
        { pos := "y", type := "e", charge := -1, fermionic := true, external := true } =
      some { type := "e", initial := "x", final := "y", arrow := true } :=
  (addOp_spec _ _).2.1 rfl rfl rfl rfl

/-- C5 counterexample.  The claim says a validated input either yields a
non-empty list or raises `NoValidContractionError`; on `typeErrOps2`
(even-length, charge-balanced) the call instead propagates the `TypeError`
from the base case of the search. -/
theorem contraction_c5_counterexample :
    typeErrOps2.length % 2 = 0 ∧ chargeSum typeErrOps2 = 0 ∧
    ¬ ((∃ l, contraction typeErrOps2 false = .ok l ∧ l ≠ [] ∧ ∀ x ∈ l, x.2 ≠ 0) ∨
       contraction typeErrOps2 false = .error .noValidContraction) := by
  have h : contract false (sortOperators typeErrOps2) [] 1 = .error () := contract_eval (by rfl)
  have hres : contraction typeErrOps2 false = .error .typeError := by
    simp only [contraction, contractionCore, h]
    rfl
  refine ⟨by decide, by decide, ?_⟩
  intro hc
  rcases hc with ⟨l, hl, _, _⟩ | hn
  · rw [hres] at hl
    cases hl
  · rw [hres] at hn
    cases hn

/-- C5, amended.  A validated input leads to exactly one of three outcomes:
a non-empty result list all of whose multiplicities are nonzero, a
`NoValidContractionError`, or a `TypeError` — either propagated from the
base case when some branch leaves an incompatible final pair, or raised by
line 184 iterating the `None` that `contract` returns whenever the validated
input has exactly two operators (so every validated two-operator input
raises `TypeError`, compatible pair or not).  An empty list is never
returned successfully. -/
theorem contraction_outcomes : ∀ (ops : List Operator) (lsz : Bool),
    ops.length % 2 = 0 → chargeSum ops = 0 →
    ((∃ l, contraction ops lsz = .ok l ∧ l ≠ [] ∧ ∀ x ∈ l, x.2 ≠ 0) ∨
     contraction ops lsz = .error .noValidContraction ∨
     contraction ops lsz = .error .typeError) ∧
    (ops.length = 2 → contraction ops lsz = .error .typeError) := by
  intro ops lsz he hc
  have hlen : (sortOperators ops).length = ops.length := (sortOperators_perm ops).length_eq
  constructor
  · unfold contraction
    rw [if_neg (by omega), if_neg (by simp [hc])]
    unfold contractionCore
    cases h : contract lsz (sortOperators ops) [] 1 with
    | error e => right; right; rfl
    | ok results =>
      dsimp only
      by_cases h2 : (sortOperators ops).length = 2
      · right; right; rw [if_pos h2]
      · rw [if_neg h2]
        by_cases hr : returnList ops results = []
        · right; left; rw [if_pos hr]
        · left
          refine ⟨returnList ops results, by rw [if_neg hr], hr, ?_⟩
          intro x hx
          unfold returnList at hx
          rcases List.mem_map.1 hx with ⟨r, hrmem, hrx⟩
          have hne := contract_mult (by norm_num) h r (List.mem_of_mem_filter hrmem)
          rw [← hrx]
          exact hne
  · intro h2
    unfold contraction
    rw [if_neg (by omega), if_neg (by simp [hc])]
    unfold contractionCore
    cases h : contract lsz (sortOperators ops) [] 1 with
    | error e => rfl
    | ok results =>
      dsimp only
      rw [if_pos (by omega)]

/-- C5 witness: the outcome characterization evaluated on the validated
two-operator input `twoBosons`, where both clauses are exercised: the call
raises the `TypeError` from iterating `None`. -/
theorem contraction_outcomes_witness :
    ((∃ l, contraction twoBosons false = .ok l ∧ l ≠ [] ∧ ∀ x ∈ l, x.2 ≠ 0) ∨
     contraction twoBosons false = .error .noValidContraction ∨
     contraction twoBosons false = .error .typeError) ∧
    (twoBosons.length = 2 → contraction twoBosons false = .error .typeError) :=
  contraction_outcomes twoBosons false (by decide) (by decide)

/-- C6.  The claim says a list containing a non-`Operator` raises the
invalid-operator-type `ValueError` before any search work.  The code
violates it: line 144 joins `not isinstance(operators, list)` and
`not all(isinstance(op, Operator) ...)` with `and` instead of `or`, so the
check never fires for a list argument; the non-`Operator` element instead
raises `AttributeError` when line 146 reads its `charge`. -/
theorem invalidType_never_raised :
    contractionPy badTypeObjs false = .error .attributeError ∧
    PyError.attributeError ≠ PyError.invalidType := by
  exact ⟨rfl, by decide⟩

/-- C7 counterexample.  Two operators sharing `(pos, type, charge)` but
differing in `fermionic` are claimed equal and mutually unordered; in the
code `@dataclass(order=True)` compares all five fields, so they are unequal
and the bosonic one orders strictly before the fermionic one. -/
theorem operator_order_counterexample :
    sameKeyBoson.pos = sameKeyFermion.pos ∧
    sameKeyBoson.type = sameKeyFermion.type ∧
    sameKeyBoson.charge = sameKeyFermion.charge ∧
    pyOpEq sameKeyBoson sameKeyFermion = false ∧
    opLt sameKeyBoson sameKeyFermion = true := by decide

theorem opLt_irrefl (a : Operator) : opLt a a = false := by
  cases h : opLt a a
  · rfl
  · have h2 := opLt_strict.asymm a a h
    rw [h2] at h
    cases h

/-- C7, amended.  Python equality on `Operator` is field-by-field equality of
all five fields (so it coincides with equality of the embedded values), and
two operators are mutually `__lt__`-unordered exactly when they are equal:
the dataclass order compares the full tuple `(pos, type, charge, fermionic,
external)`, not just `(pos, type, charge)`. -/
theorem operator_order_spec : ∀ a b : Operator,
    (pyOpEq a b = true ↔ a = b) ∧
    ((opLt a b = false ∧ opLt b a = false) ↔ a = b) := by
  intro a b
  constructor
  · constructor
    · intro h
      simp only [pyOpEq, Bool.and_eq_true, beq_iff_eq] at h
      obtain ⟨⟨⟨⟨h1, h2⟩, h3⟩, h4⟩, h5⟩ := h
      cases a; cases b
      simp_all
    · intro h
      subst h
      simp [pyOpEq]
  · constructor
    · intro h
      exact opLt_strict.connex a b h.1 h.2
    · intro h
      subst h
      exact ⟨opLt_irrefl a, opLt_irrefl a⟩

/-- C8.  Diagram construction canonicalizes: building a diagram from any
permutation of a propagator list gives the same diagram value, the stored
propagator sequence is the sorted one, and sorting is idempotent. -/
theorem diagram_canonicalization :
    ∀ (outer inner : List String) (P Q : List Propagator), P.Perm Q →
      mkDiagram outer inner P = mkDiagram outer inner Q ∧
      (mkDiagram outer inner P).propagators = sortPropagators P ∧
      sortPropagators (sortPropagators P) = sortPropagators P := by
  intro outer inner P Q hPQ
  refine ⟨?_, rfl, sortPropagators_idem P⟩
  unfold mkDiagram
  rw [sortPropagators_eq_of_perm hPQ]

/-- C8 witness: two propagators inserted in both orders yield the same
diagram. -/
theorem diagram_canonicalization_witness :
    mkDiagram ["o"] ["i"] [⟨"f", "a", "b", false⟩, ⟨"e", "c", "d", true⟩] =
      mkDiagram ["o"] ["i"] [⟨"e", "c", "d", true⟩, ⟨"f", "a", "b", false⟩] :=
  (diagram_canonicalization ["o"] ["i"] _ _
    (List.Perm.swap (⟨"f", "a", "b", false⟩ : Propagator) ⟨"e", "c", "d", true⟩ [])).1

/-- C9.  The search terminates on every input: each recursive call removes
exactly two operators (`branchRest` shrinks the list by two), and the
recursion depth is bounded by half the input length — with fuel
`rem.length / 2` the fuel-indexed search never exhausts its fuel and computes
exactly the (terminating) well-founded `contract`. -/
theorem contract_depth_bound :
    ∀ (lsz : Bool) (fuel : Nat) (rem : List Operator) (acc : List Propagator) (m : Int),
      (rem.length / 2 ≤ fuel → contractF lsz fuel rem acc m = some (contract lsz rem acc m)) ∧
      (∀ i, 1 ≤ i → i < rem.length → (branchRest rem i).length + 2 = rem.length) := by
  intro lsz fuel rem acc m
  exact ⟨fun h => contractF_eq_contract lsz fuel rem acc m h,
    fun i h1 h2 => branchRest_length h1 h2⟩

/-- C9 witness: fuel 2 suffices for the four-operator example, and removing
positions 0 and 1 from it leaves two operators. -/
theorem contract_depth_bound_witness :
    contractF false 2 fourFermions [] 1 = some (contract false fourFermions [] 1) ∧
    (branchRest fourFermions 1).length + 2 = fourFermions.length :=
  ⟨(contract_depth_bound false 2 fourFermions [] 1).1 (by decide),
   (contract_depth_bound false 2 fourFermions [] 1).2 1 (by decide) (by decide)⟩

/-- C10 counterexample.  The claim says the caller's list is left canonically
sorted after any call; on an odd-length, unsorted input the validation at
line 142 raises before the sort at line 152 runs, so the list is unchanged
and not sorted. -/
theorem final_operators_counterexample :
    contraction oddUnsortedOps false = .error .invalidCount ∧
    contractionFinalOperators oddUnsortedOps = oddUnsortedOps ∧
    contractionFinalOperators oddUnsortedOps ≠ sortOperators oddUnsortedOps := by
  refine ⟨rfl, rfl, by decide⟩

/-- C10, amended.  The final contents of the caller's list always hold the
same `Operator` values (a permutation; the frozen values themselves are never
mutated).  After a call that passes the validations — whether it returns or
raises from the search — the list is the canonically sorted permutation;
after a validation failure it is unchanged. -/
theorem final_operators_spec : ∀ ops : List Operator,
    (contractionFinalOperators ops).Perm ops ∧
    (ops.length % 2 = 0 → chargeSum ops = 0 →
      contractionFinalOperators ops = sortOperators ops ∧
      List.Sorted (fun a b => opLe a b = true) (contractionFinalOperators ops)) ∧
    (ops.length % 2 ≠ 0 ∨ chargeSum ops ≠ 0 → contractionFinalOperators ops = ops) := by
  intro ops
  refine ⟨?_, ?_, ?_⟩
  · unfold contractionFinalOperators
    split
    · exact List.Perm.refl ops
    · split
      · exact List.Perm.refl ops
      · exact sortOperators_perm ops
  · intro he hc
    unfold contractionFinalOperators
    rw [if_neg (by omega), if_neg (by simp [hc])]
    exact ⟨rfl, sortOperators_sorted ops⟩
  · intro h
    unfold contractionFinalOperators
    by_cases he : ops.length % 2 ≠ 0
    · rw [if_pos he]
    · rw [if_neg he]
      rw [if_pos (h.resolve_left he)]

/-- C10 witness: the sorted-output clause evaluated on the four-fermion
example. -/
theorem final_operators_spec_witness :
    contractionFinalOperators fourFermions = sortOperators fourFermions ∧
    List.Sorted (fun a b => opLe a b = true) (contractionFinalOperators fourFermions) :=
  (final_operators_spec fourFermions).2.1 (by decide) (by decide)
